import Mathlib

/-!
Verification development for the retrieval-augmented-chat backend
(`python-server/server.py` and `temp/embedded_langflow_server.py`).

The Python sources are shallowly embedded: dictionaries become association
lists, the mutable store becomes explicit state passing, fallible calls
(the embedding provider, the generation backend) return `Option`, and the
regex-based link rewriting is modelled character-by-character, including the
fact that the pattern string in the source is a non-raw Python string, so
the `\b` written there denotes the backspace character U+0008, not a regex
word boundary.
-/

namespace AutoDoc

/-! ## Dictionaries of string metadata (Python `Dict[str, Any]`, restricted
to the string-valued keys the code reads). -/

structure MetaDict where
  entries : List (String × String)
deriving DecidableEq

def MetaDict.get (m : MetaDict) (k : String) : Option String :=
  (m.entries.find? (fun p => p.1 == k)).map (fun p => p.2)

/-- Python truthiness of an optional string: `None` and `""` are falsy. -/
def truthy : Option String → Bool
  | none => false
  | some s => !(s == "")

/-- Python `a or b` on optional strings. -/
def pyOr (a b : Option String) : Option String :=
  if truthy a then a else b

/-! ## Records stored by the vector store and returned by search. -/

structure DocRecord where
  doc_id : String
  content : String
  metadata : MetaDict
  timestamp : String
deriving DecidableEq

/-- A search hit: the stored record's fields (the source copies the dict)
plus the `score` key added by `search`. -/
structure SearchResultRec where
  doc_id : String
  content : String
  metadata : MetaDict
  timestamp : String
  score : Int
deriving DecidableEq

/-! ## `enhance_response_with_links` (embedded_langflow_server.py 265-336). -/

structure LinkInfo where
  slug : String
  type : String
  path : String
deriving DecidableEq

/-- Python dict insertion: overwriting an existing key keeps its position,
a new key is appended. -/
def dictInsert (m : List (String × LinkInfo)) (k : String) (v : LinkInfo) :
    List (String × LinkInfo) :=
  if m.any (fun p => p.1 == k) then
    m.map (fun p => if p.1 == k then (k, v) else p)
  else m ++ [(k, v)]

def strLower (s : String) : String := ⟨s.data.map Char.toLower⟩

/-- Python `s.replace(' ', '-')`. -/
def spaceToHyphen (s : String) : String :=
  ⟨s.data.map (fun c => if c = ' ' then '-' else c)⟩

/-- Suffix after the first occurrence of `c` (Python `s.split(c, 1)[1]`). -/
def afterSep (c : Char) : List Char → List Char
  | [] => []
  | d :: rest => if d = c then rest else afterSep c rest

/-- `name` resolution: `metadata.get('name') or metadata.get('methodName')
or metadata.get('componentName')`, then the `if name:` truthiness test. -/
def resolveName (md : MetaDict) : Option String :=
  let n := pyOr (pyOr (md.get "name") (md.get "methodName")) (md.get "componentName")
  if truthy n then n else none

/-- Slug resolution for one result (lines 289-295 of the source). -/
def resolveSlug (md : MetaDict) (name doc_id : String) : String :=
  let slug0 := pyOr (md.get "slug") (md.get "componentSlug")
  if truthy slug0 then slug0.getD ""
  else if doc_id.data.contains '_' then ⟨afterSep '_' doc_id.data⟩
  else spaceToHyphen (strLower name)

/-- One iteration of the table-building loop (lines 278-303). -/
def buildEntry (r : SearchResultRec) : Option (String × LinkInfo) :=
  if r.metadata.entries.isEmpty then none
  else
    match resolveName r.metadata with
    | none => none
    | some name =>
      let doc_type := (r.metadata.get "type").getD "function"
      some (name, ⟨resolveSlug r.metadata name r.doc_id, doc_type,
                   (r.metadata.get "filePath").getD ""⟩)

/-- The `name_to_info` mapping built from the search results. -/
def name_to_info (search_results : List SearchResultRec) :
    List (String × LinkInfo) :=
  search_results.foldl
    (fun m r =>
      match buildEntry r with
      | some (n, i) => dictInsert m n i
      | none => m) []

/-- The route segment chosen from the entity type (source variable
`route_prefix`, lines 312-318). -/
def routeSeg (t : String) : String :=
  if t == "component" then "components"
  else if t == "class" then "classes"
  else if t == "method" then "functions"
  else "functions"

/-- The backspace character: in the source the pattern is built with the
non-raw f-string `f"\b{re.escape(name)}\b(?![^\[]*\])"`, and in a non-raw
Python string `\b` is the escape for U+0008. -/
def bsChar : Char := Char.ofNat 8

/-- The negative lookahead `(?![^\[]*\])` succeeds at a position iff,
scanning forward, `'['` or the end of the text is reached before `']'`. -/
def negLookOk : List Char → Bool
  | [] => true
  | c :: rest => if c = ']' then false else if c = '[' then true else negLookOk rest

/-- Whether the compiled pattern (literal backspace, the escaped name,
literal backspace, then the lookahead) matches at the head of `text`. -/
def patHere (name text : List Char) : Bool :=
  let pre := bsChar :: (name ++ [bsChar])
  pre.isPrefixOf text && negLookOk (text.drop pre.length)

/-- Leftmost-match single substitution (`re.sub(pattern, link, s, count=1)`):
`none` when the pattern matches nowhere. -/
def subFirstAux (name link : List Char) : List Char → Option (List Char)
  | [] => none
  | c :: rest =>
    if patHere name (c :: rest) then
      some (link ++ (c :: rest).drop (name.length + 2))
    else
      (subFirstAux name link rest).map (fun t => c :: t)

/-- `re.sub(..., count=1)` preceded by the source's `re.search` guard:
the text is returned unchanged when there is no match. -/
def subFirst (name link text : List Char) : List Char :=
  (subFirstAux name link text).getD text

/-- The per-name replacement step of the loop (lines 307-329). -/
def applyLink (text : String) (name : String) (info : LinkInfo) : String :=
  if name.length < 3 then text
  else
    ⟨subFirst name.data
      ("[" ++ name ++ "](/" ++ routeSeg info.type ++ "/" ++ info.slug ++ ")").data
      text.data⟩

/-- `enhance_response_with_links(response, search_results)`. -/
def enhance_response_with_links (response : String)
    (search_results : List SearchResultRec) : String :=
  if search_results.isEmpty then response
  else (name_to_info search_results).foldl (fun acc p => applyLink acc p.1 p.2) response

/-! ## The vector store (server.py `VectorDBManager`,
embedded_langflow_server.py `SimpleVectorDB`).

Embeddings are fixed-length numeric vectors; the store's algorithmic
content (insertion position bookkeeping, nearest-neighbour ordering by
squared Euclidean distance with ties by ascending position, persistence)
is independent of the scalar type, so vectors are embedded over `Int`.
The external embedding provider is a parameter `emb : String → Option Vec`
(`none` models `encode` raising). -/

abbrev Vec := List Int

/-- Squared Euclidean distance, the metric of `faiss.IndexFlatL2`. -/
def sqDist (a b : Vec) : Int :=
  (List.zipWith (fun x y => (x - y) * (x - y)) a b).sum

/-- Lookup in the position-to-record dictionary. -/
def lookupA (m : List (Nat × DocRecord)) (k : Nat) : Option DocRecord :=
  (m.find? (fun p => p.1 == k)).map (fun p => p.2)

/-- Python dict assignment `m[k] = v` on the metadata table. -/
def dictSet (m : List (Nat × DocRecord)) (k : Nat) (v : DocRecord) :
    List (Nat × DocRecord) :=
  if m.any (fun p => p.1 == k) then
    m.map (fun p => if p.1 == k then (k, v) else p)
  else m ++ [(k, v)]

structure VectorDB where
  index : List Vec
  metadata : List (Nat × DocRecord)
deriving DecidableEq

/-- The two artifacts the manager persists under its directory:
`faiss.index` and `metadata.pkl`; `none` models an absent file. -/
structure Disk where
  indexFile : Option (List Vec)
  metadataFile : Option (List (Nat × DocRecord))
deriving DecidableEq

/-- In-memory store plus its on-disk files, for the persisting manager. -/
structure ServerState where
  db : VectorDB
  disk : Disk
deriving DecidableEq

/-- Pair every vector with its position, starting at `i`number. -/
def scoreAll (q : Vec) : Nat → List Vec → List (Nat × Int)
  | _, [] => []
  | i, v :: vs => (i, sqDist q v) :: scoreAll q (i + 1) vs

/-- The order in which `faiss.IndexFlatL2.search` returns hits: ascending
distance, ties by ascending position. -/
def distLe (a b : Nat × Int) : Prop :=
  a.2 < b.2 ∨ (a.2 = b.2 ∧ a.1 ≤ b.1)

instance : DecidableRel distLe := fun a b =>
  inferInstanceAs (Decidable (a.2 < b.2 ∨ (a.2 = b.2 ∧ a.1 ≤ b.1)))

instance : IsTotal (Nat × Int) distLe :=
  ⟨by intro a b; unfold distLe; omega⟩

instance : IsTrans (Nat × Int) distLe :=
  ⟨by intro a b c; unfold distLe; omega⟩

/-- The ranked hit list `faiss.IndexFlatL2` produces for a positive `k`:
the `k` nearest stored vectors, as (position, squared distance) pairs in
the faiss return order. -/
def knn (index : List Vec) (q : Vec) (k : Nat) : List (Nat × Int) :=
  (List.insertionSort distLe (scoreAll q 0 index)).take k

/-- `index.search(q, k)`: faiss (>= 1.7, and the repository pins
faiss-cpu>=1.8.0) rejects `k = 0` — `assert k > 0` in the Python wrapper,
`FAISS_THROW_IF_NOT(k > 0)` in `IndexFlat::search` — modelled as `none`;
for a positive `k` it returns the ranked hit list. -/
def indexSearch (index : List Vec) (q : Vec) (k : Nat) :
    Option (List (Nat × Int)) :=
  if k = 0 then none else some (knn index q k)

/-- The result-assembly loop of both `search` methods: map each hit
through the metadata table, skipping any position without a metadata
entry.  (The source's `idx != -1` guard is subsumed: faiss emits `-1`
only when asked for more hits than `ntotal`, which the callers' `min`
prevents.) -/
def hitsToResults (metadata : List (Nat × DocRecord))
    (hits : List (Nat × Int)) : List SearchResultRec :=
  hits.filterMap
    (fun p => (lookupA metadata p.1).map
      (fun rec => ⟨rec.doc_id, rec.content, rec.metadata, rec.timestamp, p.2⟩))

/-- The shared body of both `search` methods (server.py 240-253,
embedded server 149-163): call `index.search` with `min(top_k, ntotal)`
— which raises for `top_k = 0`, since the callers only reach this point
on a non-empty index — then assemble the results. -/
def searchCore (index : List Vec) (metadata : List (Nat × DocRecord))
    (qe : Vec) (top_k : Nat) : Option (List SearchResultRec) :=
  (indexSearch index qe (min top_k index.length)).map (hitsToResults metadata)

namespace VectorDBManager

/-- `VectorDBManager.save` (server.py 255-262): rewrite both artifacts
from the in-memory state. -/
def save (db : VectorDB) : Disk := ⟨some db.index, some db.metadata⟩

/-- `VectorDBManager.add_document` (server.py 214-232): embed, append to
the index, store the record at `index.ntotal - 1` with the current
timestamp, then save.  `none` models the embedder raising, which happens
before any mutation. -/
def add_document (emb : String → Option Vec) (now doc_id content : String)
    (md : MetaDict) (s : ServerState) : Option ServerState :=
  match emb content with
  | none => none
  | some v =>
    let index' := s.db.index ++ [v]
    let idx := index'.length - 1
    let meta' := dictSet s.db.metadata idx ⟨doc_id, content, md, now⟩
    let db' : VectorDB := ⟨index', meta'⟩
    some ⟨db', save db'⟩

/-- `VectorDBManager.search` (server.py 234-253): the empty-index check
precedes the query embedding; the state is returned unchanged because the
method assigns no field of `self`. -/
def search (emb : String → Option Vec) (query : String) (top_k : Nat)
    (s : ServerState) : Option (ServerState × List SearchResultRec) :=
  if s.db.index.length = 0 then some (s, [])
  else
    match emb query with
    | none => none
    | some qe =>
      (searchCore s.db.index s.db.metadata qe top_k).map (fun res => (s, res))

/-- `VectorDBManager.initialize` (server.py 196-212): load both artifacts
when both files exist, otherwise start from a fresh empty store.  No
consistency check between the two artifacts is performed.  (Named
`initializeStore` here; the source method is `initialize`.) -/
def initializeStore (disk : Disk) : VectorDB :=
  match disk.indexFile, disk.metadataFile with
  | some idx, some md => ⟨idx, md⟩
  | _, _ => ⟨[], []⟩

end VectorDBManager

/-! ## The embedded server's store and endpoints. -/

/-- `SimpleVectorDB` (embedded server 115-163): lazily initialized index,
separate `doc_count` counter used as the metadata key, no persistence. -/
structure SimpleVectorDB where
  index : Option (List Vec)
  metadata : List (Nat × DocRecord)
  doc_count : Nat
deriving DecidableEq

namespace SimpleVectorDB

/-- `SimpleVectorDB.add_document` (embedded server 126-143): initialize
the index if absent, embed, append, store the record under `doc_count`,
increment the counter.  The returned Bool is `false` when the embedder
raises (after the lazy initialization, before any other mutation). -/
def add_document (emb : String → Option Vec) (now doc_id content : String)
    (md : MetaDict) (db : SimpleVectorDB) : SimpleVectorDB × Bool :=
  let db0 : SimpleVectorDB :=
    match db.index with
    | none => { db with index := some [] }
    | some _ => db
  match emb content with
  | none => (db0, false)
  | some v =>
    ({ index := some ((db0.index.getD []) ++ [v])
       metadata := dictSet db0.metadata db0.doc_count ⟨doc_id, content, md, now⟩
       doc_count := db0.doc_count + 1 }, true)

/-- `SimpleVectorDB.search` (embedded server 145-163). -/
def search (emb : String → Option Vec) (query : String) (top_k : Nat)
    (db : SimpleVectorDB) : Option (List SearchResultRec) :=
  match db.index with
  | none => some []
  | some idx =>
    if idx.length = 0 then some []
    else
      match emb query with
      | none => none
      | some qe => searchCore idx db.metadata qe top_k

end SimpleVectorDB

/-- `DocumentRequest` (both servers): one document of a batch. -/
structure DocumentRequest where
  content : String
  metadata : MetaDict
  doc_id : String
deriving DecidableEq

/-- `process_batch_documents` (server.py 392-402): one `add_document` per
document, each wrapped in try/except so a failure is logged and skipped
and the remaining documents are still processed. -/
def process_batch_documents (emb : String → Option Vec) (now : String)
    (docs : List DocumentRequest) (s : ServerState) : ServerState :=
  docs.foldl
    (fun st d =>
      (VectorDBManager.add_document emb now d.doc_id d.content d.metadata st).getD st)
    s

/-- The embedded server's `/documents/batch` endpoint (368-387): plain
loop with no per-document try/except; the first failing `add_document`
raises out of the loop, so the remaining documents are not processed.
The Bool is `false` when the loop was aborted. -/
def batch_add_documents (emb : String → Option Vec) (now : String) :
    List DocumentRequest → SimpleVectorDB → SimpleVectorDB × Bool
  | [], db => (db, true)
  | d :: rest, db =>
    match SimpleVectorDB.add_document emb now d.doc_id d.content d.metadata db with
    | (db', true) => batch_add_documents emb now rest db'
    | (db', false) => (db', false)

/-! ## `generate_ollama_response` (embedded server 217-263). -/

/-- Python `context[:300]`. -/
def take300 (s : String) : String := ⟨s.data.take 300⟩

/-- The non-200-status fallback message (line 259). -/
def fallback_http (context : String) : String :=
  "Based on the documentation: " ++ take300 context ++
    "... I can help answer questions about this code."

/-- The exception/timeout fallback message (line 263). -/
def fallback_exn (context : String) : String :=
  "I found relevant documentation: " ++ take300 context ++
    "... Please let me know if you need more specific information."

/-- Outcome of the external generation call: an exception (timeout,
connection error), or an HTTP response with a status code and the parsed
message content. -/
inductive BackendOutcome where
  | failure
  | response (status : Nat) (content : String)
deriving DecidableEq

/-- `generate_ollama_response`: on status 200 the content is passed
through the link enhancer; on any other status or on an exception a
context-derived template is returned, without enhancement. -/
def generate_ollama_response (outcome : BackendOutcome) (context : String)
    (search_results : List SearchResultRec) : String :=
  match outcome with
  | .failure => fallback_exn context
  | .response status content =>
    if status = 200 then enhance_response_with_links content search_results
    else fallback_http context

/-- Modelled from the spec (§4.4(d), which says the raw **or fallback**
text is run through ResponseLinkEnhancer before being returned): the
pre-enhancement candidate text of each outcome.  The spec's claim is that
`generate_ollama_response` equals the enhancer applied to this text. -/
def preEnhanceText (outcome : BackendOutcome) (context : String) : String :=
  match outcome with
  | .failure => fallback_exn context
  | .response status content =>
    if status = 200 then content else fallback_http context

/-! ## Helper lemmas about the enhancer. -/

lemma patHere_eq_false (name : List Char) {c : Char} (rest : List Char)
    (h : c ≠ bsChar) : patHere name (c :: rest) = false := by
  unfold patHere
  have hpre : ((bsChar :: (name ++ [bsChar])).isPrefixOf (c :: rest)) = false := by
    simp only [List.isPrefixOf, Bool.and_eq_false_iff]
    left
    simp only [beq_eq_false_iff_ne, ne_eq]
    exact fun e => h e.symm
  simp [hpre]

lemma subFirstAux_eq_none (name link : List Char) :
    ∀ text : List Char, bsChar ∉ text → subFirstAux name link text = none
  | [], _ => rfl
  | c :: rest, h => by
    have hc : c ≠ bsChar := fun e => h (e ▸ List.mem_cons_self c rest)
    have hr : bsChar ∉ rest := fun m => h (List.mem_cons_of_mem c m)
    unfold subFirstAux
    rw [if_neg (by simp [patHere_eq_false name rest hc])]
    rw [subFirstAux_eq_none name link rest hr]
    rfl

lemma subFirst_of_no_bs (name link text : List Char) (h : bsChar ∉ text) :
    subFirst name link text = text := by
  unfold subFirst
  rw [subFirstAux_eq_none name link text h]
  rfl

lemma applyLink_of_no_bs (text name : String) (info : LinkInfo)
    (h : bsChar ∉ text.data) : applyLink text name info = text := by
  unfold applyLink
  split
  · rfl
  · rw [subFirst_of_no_bs _ _ _ h]

lemma table_fold_of_no_bs (table : List (String × LinkInfo)) (text : String)
    (h : bsChar ∉ text.data) :
    table.foldl (fun acc p => applyLink acc p.1 p.2) text = text := by
  induction table with
  | nil => rfl
  | cons p rest ih => rw [List.foldl_cons, applyLink_of_no_bs _ _ _ h]; exact ih

lemma enhance_of_no_bs (response : String) (results : List SearchResultRec)
    (h : bsChar ∉ response.data) :
    enhance_response_with_links response results = response := by
  unfold enhance_response_with_links
  split
  · rfl
  · exact table_fold_of_no_bs _ _ h

/-! ## Concrete data used by the enhancer claims. -/

/-- The search result of the spec's concrete scenario: metadata name
`parseConfig`, type `function`, doc_id `fn_parseConfig`, no slug. -/
def c1_result : SearchResultRec :=
  ⟨"fn_parseConfig", "parses the config file",
   ⟨[("name", "parseConfig"), ("type", "function")]⟩, "ts", 0⟩

/-- A result whose entity name is `foo` with doc_id `fn_foo`. -/
def foo_results : List SearchResultRec :=
  [⟨"fn_foo", "content", ⟨[("name", "foo"), ("type", "function")]⟩, "ts", 0⟩]

/-- A text containing two backspace-delimited occurrences of `foo` — the
only kind of occurrence the compiled pattern can match. -/
def c7_text : String :=
  ⟨[bsChar, 'f', 'o', 'o', bsChar, ' ', bsChar, 'f', 'o', 'o', bsChar]⟩

/-- A context string containing one backspace-delimited occurrence of
`foo`. -/
def c8_context : String := ⟨[bsChar, 'f', 'o', 'o', bsChar]⟩

/-- C1: the enhancer never rewrites the concrete scenario's text.  The
pattern in the source is built with a non-raw Python f-string, so its
`\b` is a literal backspace character rather than a regex word boundary;
the pattern therefore cannot match `parseConfig` in ordinary text, and
the response is returned unchanged instead of gaining the link
`[parseConfig](/functions/parseConfig)` that the claim (and the code's
own docstring and comments) promise. -/
theorem C1_enhancer_concrete_scenario :
    enhance_response_with_links "Use parseConfig to read settings." [c1_result]
        = "Use parseConfig to read settings." ∧
    "Use parseConfig to read settings."
        ≠ "Use [parseConfig](/functions/parseConfig) to read settings." := by
  constructor
  · decide
  · decide

/-- C7 (counterexample): the enhancer is not idempotent.  On a text with
two backspace-delimited occurrences of `foo`, the first application
rewrites the first occurrence and the second application rewrites the
remaining one, so enhancing twice differs from enhancing once. -/
theorem C7_counterexample :
    enhance_response_with_links (enhance_response_with_links c7_text foo_results) foo_results
      ≠ enhance_response_with_links c7_text foo_results := by
  decide

/-- C7 (amended): because the compiled pattern begins and ends with a
literal backspace character, the enhancer returns any backspace-free text
unchanged — hence on such texts it is trivially idempotent — and a name
shorter than 3 characters is never replaced in any text. -/
theorem C7_enhancer_idempotent_without_backspace :
    (∀ (response : String) (results : List SearchResultRec),
       bsChar ∉ response.data →
       enhance_response_with_links response results = response) ∧
    (∀ (response : String) (results : List SearchResultRec),
       bsChar ∉ response.data →
       enhance_response_with_links (enhance_response_with_links response results) results
         = enhance_response_with_links response results) ∧
    (∀ (text name : String) (info : LinkInfo),
       name.length < 3 → applyLink text name info = text) := by
  refine ⟨fun r rs h => enhance_of_no_bs r rs h, fun r rs h => ?_, fun t n i h => ?_⟩
  · rw [enhance_of_no_bs r rs h, enhance_of_no_bs r rs h]
  · unfold applyLink
    rw [if_pos h]

/-- C7 witness: the amended idempotence applied to a concrete
backspace-free text and result set. -/
theorem C7_enhancer_idempotent_without_backspace_witness :
    enhance_response_with_links
        (enhance_response_with_links "Use foo here." foo_results) foo_results
      = enhance_response_with_links "Use foo here." foo_results :=
  C7_enhancer_idempotent_without_backspace.2.1 "Use foo here." foo_results (by decide)

/-- C8 (counterexample): on a non-success backend response the
orchestrator returns the fallback template itself; it does not run the
fallback through the enhancer.  With a context containing a
backspace-delimited entity name, enhancing the fallback would change it,
so the returned text differs from the enhancement of the raw-or-fallback
candidate that the claim requires. -/
theorem C8_counterexample :
    generate_ollama_response (.response 500 "") c8_context foo_results
      ≠ enhance_response_with_links
          (preEnhanceText (.response 500 "") c8_context) foo_results := by
  decide

/-- C8 (amended): on a timeout/exception or a non-success status the
orchestrator returns a context-derived templated message instead of
failing; only the successful (status-200) generation output is passed
through the link enhancer — the fallback messages are returned without
enhancement. -/
theorem C8_fallback_behavior :
    ∀ (context : String) (rs : List SearchResultRec) (status : Nat) (content : String),
      generate_ollama_response .failure context rs = fallback_exn context ∧
      (status ≠ 200 →
        generate_ollama_response (.response status content) context rs
          = fallback_http context) ∧
      generate_ollama_response (.response 200 content) context rs
        = enhance_response_with_links content rs := by
  intro context rs status content
  refine ⟨rfl, fun h => ?_, ?_⟩
  · simp only [generate_ollama_response]
    rw [if_neg h]
  · rfl

/-- C8 witness: the non-success branch at a concrete input. -/
theorem C8_fallback_behavior_witness :
    generate_ollama_response (.response 500 "x") "ctx" [] = fallback_http "ctx" :=
  (C8_fallback_behavior "ctx" [] 500 "x").2.1 (by decide)

/-- Records for the mismatched-artifact counterexample. -/
def recA : DocRecord := ⟨"d0", "c0", ⟨[]⟩, "ts"⟩

def recB : DocRecord := ⟨"d1", "c1", ⟨[]⟩, "ts"⟩

/-- A disk whose artifacts disagree: one vector, two metadata entries. -/
def c5_disk : Disk := ⟨some [[1]], some [(0, recA), (1, recB)]⟩

/-- C5 (counterexample): on a disk with both artifacts present but with
disagreeing entry counts (one vector, two records), `initialize` loads
both as-is instead of falling back to the fresh empty state the claim
requires. -/
theorem C5_counterexample :
    VectorDBManager.initializeStore c5_disk ≠ VectorDB.mk [] [] ∧
    VectorDBManager.initializeStore c5_disk = ⟨[[1]], [(0, recA), (1, recB)]⟩ := by
  constructor
  · decide
  · rfl

/-- C5 (amended): on load, if either persisted artifact is absent the
store initializes to the fresh empty state, and if both are present they
are loaded exactly as stored — no consistency check between their entry
counts is performed. -/
theorem C5_load_fallback :
    (∀ disk : Disk, disk.indexFile = none ∨ disk.metadataFile = none →
        VectorDBManager.initializeStore disk = ⟨[], []⟩) ∧
    (∀ (idx : List Vec) (md : List (Nat × DocRecord)),
        VectorDBManager.initializeStore ⟨some idx, some md⟩ = ⟨idx, md⟩) := by
  constructor
  · intro disk h
    obtain ⟨i, m⟩ := disk
    rcases h with h | h
    · cases h
      cases m <;> rfl
    · cases h
      cases i <;> rfl
  · intro idx md
    rfl

/-- C5 witness: a disk with a missing metadata artifact loads empty. -/
theorem C5_load_fallback_witness :
    VectorDBManager.initializeStore ⟨some [[1]], none⟩ = ⟨[], []⟩ :=
  C5_load_fallback.1 ⟨some [[1]], none⟩ (Or.inr rfl)

/-- C4: persistence round-trip.  `save` writes both artifacts from the
in-memory state and `initialize` on a disk holding both artifacts loads
them back verbatim, so save-then-load reproduces the store exactly —
position-to-record mapping and vectors alike. -/
theorem C4_persistence_roundtrip :
    ∀ db : VectorDB, VectorDBManager.initializeStore (VectorDBManager.save db) = db := by
  intro db
  rfl

/-! ## Dictionary lemmas for the position-to-record table. -/

lemma lookupA_nil (k : Nat) : lookupA [] k = none := rfl

lemma lookupA_cons (p : Nat × DocRecord) (m : List (Nat × DocRecord)) (k : Nat) :
    lookupA (p :: m) k = if p.1 = k then some p.2 else lookupA m k := by
  unfold lookupA
  by_cases hp : p.1 = k
  · rw [List.find?_cons_of_pos _ (by simp [hp]), if_pos hp]
    rfl
  · rw [List.find?_cons_of_neg _ (by simp [hp]), if_neg hp]

lemma any_key_iff (m : List (Nat × DocRecord)) (k : Nat) :
    m.any (fun p => p.1 == k) = true ↔ k ∈ m.map Prod.fst := by
  rw [List.any_eq_true]
  constructor
  · rintro ⟨p, hp, he⟩
    exact List.mem_map.mpr ⟨p, hp, by simpa using he⟩
  · intro hm
    rcases List.mem_map.mp hm with ⟨p, hp, he⟩
    exact ⟨p, hp, by simp [he]⟩

lemma lookupA_isSome_of_mem_keys (m : List (Nat × DocRecord)) (k : Nat)
    (h : k ∈ m.map Prod.fst) : (lookupA m k).isSome := by
  induction m with
  | nil => simp at h
  | cons p rest ih =>
    rw [lookupA_cons]
    by_cases hp : p.1 = k
    · simp [hp]
    · have h' : k ∈ rest.map Prod.fst := by
        rw [List.map_cons] at h
        rcases List.mem_cons.mp h with h0 | h0
        · exact absurd h0.symm hp
        · exact h0
      simp [hp, ih h']

lemma lookupA_append_right_ne (m : List (Nat × DocRecord)) (k i : Nat)
    (v : DocRecord) (h : i ≠ k) : lookupA (m ++ [(k, v)]) i = lookupA m i := by
  induction m with
  | nil =>
    rw [List.nil_append, lookupA_cons, lookupA_nil, if_neg (fun e => h e.symm)]
  | cons p rest ih =>
    rw [List.cons_append, lookupA_cons, lookupA_cons, ih]

lemma lookupA_append_self (m : List (Nat × DocRecord)) (k : Nat) (v : DocRecord)
    (h : k ∉ m.map Prod.fst) : lookupA (m ++ [(k, v)]) k = some v := by
  induction m with
  | nil => simp [lookupA_cons]
  | cons p rest ih =>
    have hp : p.1 ≠ k := fun e => h (by simp [e])
    have h' : k ∉ rest.map Prod.fst := fun hm => h (by simp [hm])
    rw [List.cons_append, lookupA_cons, if_neg hp]
    exact ih h'

lemma dictSet_fresh (m : List (Nat × DocRecord)) (k : Nat) (v : DocRecord)
    (h : k ∉ m.map Prod.fst) : dictSet m k v = m ++ [(k, v)] := by
  unfold dictSet
  rw [if_neg]
  intro hany
  exact h ((any_key_iff m k).mp hany)

lemma lookupA_map_overwrite (m : List (Nat × DocRecord)) (k : Nat) (v : DocRecord)
    (h : k ∈ m.map Prod.fst) :
    lookupA (m.map (fun p => if p.1 == k then (k, v) else p)) k = some v := by
  induction m with
  | nil => simp at h
  | cons p rest ih =>
    rw [List.map_cons]
    by_cases hp : p.1 = k
    · rw [show (if p.1 == k then (k, v) else p) = (k, v) by simp [hp], lookupA_cons, if_pos rfl]
    · rw [show (if p.1 == k then (k, v) else p) = p by simp [hp], lookupA_cons, if_neg hp]
      have h' : k ∈ rest.map Prod.fst := by
        rw [List.map_cons] at h
        rcases List.mem_cons.mp h with h0 | h0
        · exact absurd h0.symm hp
        · exact h0
      exact ih h'

lemma lookupA_dictSet_self (m : List (Nat × DocRecord)) (k : Nat) (v : DocRecord) :
    lookupA (dictSet m k v) k = some v := by
  unfold dictSet
  by_cases h : m.any (fun p => p.1 == k) = true
  · rw [if_pos h]
    exact lookupA_map_overwrite m k v ((any_key_iff m k).mp h)
  · rw [if_neg h]
    apply lookupA_append_self
    intro hm
    exact h ((any_key_iff m k).mpr hm)

/-! ## The store invariants. -/

/-- The manager store invariant: the metadata keys are exactly the
positions of the index, in insertion order. -/
def StoreInv (db : VectorDB) : Prop :=
  db.metadata.map Prod.fst = List.range db.index.length

/-- The embedded store invariant: metadata keys are exactly
`0 .. doc_count - 1` and `doc_count` tracks the index size. -/
def SimpleInv (db : SimpleVectorDB) : Prop :=
  db.metadata.map Prod.fst = List.range db.doc_count ∧
  db.doc_count = (db.index.getD []).length

lemma StoreInv.sizeEq {db : VectorDB} (h : StoreInv db) :
    db.metadata.length = db.index.length := by
  have := congrArg List.length h
  simpa using this

lemma StoreInv.allPresent {db : VectorDB} (h : StoreInv db) :
    ∀ i, i < db.index.length → (lookupA db.metadata i).isSome := by
  intro i hi
  apply lookupA_isSome_of_mem_keys
  rw [h]
  exact List.mem_range.mpr hi

lemma storeInv_fresh {db : VectorDB} (h : StoreInv db) :
    db.index.length ∉ db.metadata.map Prod.fst := by
  rw [h]
  intro hm
  exact absurd (List.mem_range.mp hm) (lt_irrefl _)

/-! ## Normal forms of the add operations. -/

lemma add_document_eq (emb : String → Option Vec) (now d c : String)
    (m : MetaDict) (s : ServerState) (v : Vec) (h : emb c = some v) :
    VectorDBManager.add_document emb now d c m s =
      some ⟨⟨s.db.index ++ [v], dictSet s.db.metadata s.db.index.length ⟨d, c, m, now⟩⟩,
            VectorDBManager.save
              ⟨s.db.index ++ [v], dictSet s.db.metadata s.db.index.length ⟨d, c, m, now⟩⟩⟩ := by
  unfold VectorDBManager.add_document
  rw [h]
  simp only [List.length_append, List.length_cons, List.length_nil, Nat.zero_add,
    Nat.add_sub_cancel]

lemma simple_add_eq (emb : String → Option Vec) (now d c : String)
    (m : MetaDict) (db : SimpleVectorDB) (v : Vec) (h : emb c = some v) :
    SimpleVectorDB.add_document emb now d c m db =
      (⟨some ((db.index.getD []) ++ [v]),
        dictSet db.metadata db.doc_count ⟨d, c, m, now⟩,
        db.doc_count + 1⟩, true) := by
  unfold SimpleVectorDB.add_document
  rw [h]
  cases hdb : db.index <;> simp [hdb]

lemma simple_add_of_none (emb : String → Option Vec) (now d c : String)
    (m : MetaDict) (db : SimpleVectorDB) (h : emb c = none) :
    SimpleVectorDB.add_document emb now d c m db =
      ((match db.index with
        | none => { db with index := some [] }
        | some _ => db), false) := by
  unfold SimpleVectorDB.add_document
  rw [h]

/-! ## Search lemmas. -/

lemma scoreAll_length (q : Vec) :
    ∀ (i : Nat) (l : List Vec), (scoreAll q i l).length = l.length
  | _, [] => rfl
  | i, v :: vs => by
    simp only [scoreAll, List.length_cons, scoreAll_length q (i + 1) vs]

lemma scoreAll_mem (q : Vec) :
    ∀ (i : Nat) (l : List Vec) (p : Nat × Int), p ∈ scoreAll q i l →
      ∃ j, j < l.length ∧ p.1 = i + j ∧ ∃ v, l[j]? = some v ∧ p.2 = sqDist q v
  | _, [], p, h => by simp [scoreAll] at h
  | i, v :: vs, p, h => by
    simp only [scoreAll] at h
    rcases List.mem_cons.mp h with h0 | h0
    · exact ⟨0, Nat.succ_pos _, by simp [h0], v, by simp, by simp [h0]⟩
    · rcases scoreAll_mem q (i + 1) vs p h0 with ⟨j, hj, hp1, w, hw, hp2⟩
      refine ⟨j + 1, ?_, by omega, w, ?_, hp2⟩
      · simp only [List.length_cons]
        omega
      · simpa using hw

lemma knn_length (index : List Vec) (q : Vec) (k : Nat) :
    (knn index q k).length = min k index.length := by
  unfold knn
  rw [List.length_take, List.length_insertionSort, scoreAll_length]

lemma knn_sorted (index : List Vec) (q : Vec) (k : Nat) :
    List.Pairwise distLe (knn index q k) :=
  List.Pairwise.sublist (List.take_sublist _ _) (List.sorted_insertionSort distLe _)

lemma knn_mem (index : List Vec) (q : Vec) (k : Nat) (p : Nat × Int)
    (h : p ∈ knn index q k) :
    ∃ j, j < index.length ∧ p.1 = j ∧ ∃ v, index[j]? = some v ∧ p.2 = sqDist q v := by
  unfold knn at h
  have h1 : p ∈ List.insertionSort distLe (scoreAll q 0 index) :=
    (List.take_sublist _ _).mem h
  have h2 : p ∈ scoreAll q 0 index :=
    (List.perm_insertionSort distLe _).mem_iff.mp h1
  rcases scoreAll_mem q 0 index p h2 with ⟨j, hj, hp1, v, hv, hp2⟩
  exact ⟨j, hj, by simpa using hp1, v, hv, hp2⟩

lemma filterMap_length_all_some {α β : Type} (f : α → Option β) :
    ∀ l : List α, (∀ a ∈ l, (f a).isSome) → (l.filterMap f).length = l.length
  | [], _ => rfl
  | a :: l, h => by
    rcases Option.isSome_iff_exists.mp (h a (List.mem_cons_self a l)) with ⟨b, hb⟩
    simp only [List.filterMap_cons, hb, List.length_cons]
    rw [filterMap_length_all_some f l (fun x hx => h x (List.mem_cons_of_mem a hx))]

lemma hitsToResults_length (metadata : List (Nat × DocRecord))
    (hits : List (Nat × Int))
    (h : ∀ p ∈ hits, (lookupA metadata p.1).isSome) :
    (hitsToResults metadata hits).length = hits.length := by
  unfold hitsToResults
  rw [filterMap_length_all_some]
  intro p hp
  have := h p hp
  simpa using this

lemma hitsToResults_pairwise (metadata : List (Nat × DocRecord))
    (hits : List (Nat × Int)) (hs : List.Pairwise distLe hits) :
    List.Pairwise (fun r1 r2 : SearchResultRec => r1.score ≤ r2.score)
      (hitsToResults metadata hits) := by
  unfold hitsToResults
  apply List.Pairwise.filterMap _ _ hs
  intro a a' hle b hb b' hb'
  rw [Option.mem_def] at hb hb'
  rcases Option.map_eq_some'.mp hb with ⟨rec, _, hmk⟩
  rcases Option.map_eq_some'.mp hb' with ⟨rec', _, hmk'⟩
  subst hmk
  subst hmk'
  rcases hle with hlt | ⟨heq, _⟩
  · exact le_of_lt hlt
  · exact le_of_eq heq

lemma hitsToResults_mem (metadata : List (Nat × DocRecord))
    (hits : List (Nat × Int)) (r : SearchResultRec)
    (h : r ∈ hitsToResults metadata hits) :
    ∃ p ∈ hits,
      lookupA metadata p.1 = some ⟨r.doc_id, r.content, r.metadata, r.timestamp⟩ ∧
      r.score = p.2 := by
  unfold hitsToResults at h
  rcases List.mem_filterMap.mp h with ⟨p, hp, hf⟩
  rcases Option.map_eq_some'.mp hf with ⟨rec, hrec, hmk⟩
  subst hmk
  exact ⟨p, hp, hrec, rfl⟩

lemma searchCore_eq_none (index : List Vec) (metadata : List (Nat × DocRecord))
    (qe : Vec) (k : Nat) (h : min k index.length = 0) :
    searchCore index metadata qe k = none := by
  unfold searchCore indexSearch
  rw [if_pos h]
  rfl

lemma searchCore_eq_some (index : List Vec) (metadata : List (Nat × DocRecord))
    (qe : Vec) (k : Nat) (h : min k index.length ≠ 0) :
    searchCore index metadata qe k =
      some (hitsToResults metadata (knn index qe (min k index.length))) := by
  unfold searchCore indexSearch
  rw [if_neg h]
  rfl

lemma searchCore_some_inv (index : List Vec) (metadata : List (Nat × DocRecord))
    (qe : Vec) (k : Nat) (res : List SearchResultRec)
    (h : searchCore index metadata qe k = some res) :
    res = hitsToResults metadata (knn index qe (min k index.length)) := by
  by_cases hk : min k index.length = 0
  · rw [searchCore_eq_none index metadata qe k hk] at h
    exact absurd h (by simp)
  · rw [searchCore_eq_some index metadata qe k hk] at h
    exact (Option.some.inj h).symm

/-- The successful-path specification of `searchCore`: when the faiss
call is reached with a positive `k`, it returns `min k n` results,
ordered by non-decreasing score, each score a distance to a stored
vector. -/
lemma searchCore_spec (index : List Vec) (metadata : List (Nat × DocRecord))
    (qe : Vec) (k : Nat)
    (hinv : ∀ i, i < index.length → (lookupA metadata i).isSome)
    (hk : min k index.length ≠ 0) :
    ∃ res, searchCore index metadata qe k = some res ∧
      res.length = min k index.length ∧
      List.Pairwise (fun r1 r2 : SearchResultRec => r1.score ≤ r2.score) res ∧
      (∀ r ∈ res, ∃ v ∈ index, r.score = sqDist qe v) := by
  refine ⟨_, searchCore_eq_some index metadata qe k hk, ?_, ?_, ?_⟩
  · rw [hitsToResults_length]
    · rw [knn_length]
      omega
    · intro p hp
      rcases knn_mem index qe _ p hp with ⟨j, hj, hp1, _⟩
      exact hinv p.1 (hp1 ▸ hj)
  · exact hitsToResults_pairwise _ _ (knn_sorted index qe _)
  · intro r hr
    rcases hitsToResults_mem _ _ r hr with ⟨p, hp, _, hscore⟩
    rcases knn_mem index qe _ p hp with ⟨j, hj, hp1, v, hv, hp2⟩
    exact ⟨v, List.getElem?_mem hv, by rw [hscore, hp2]⟩

/-- Inversion of `VectorDBManager.search`: the returned state is the input
state and the result list is empty or a successful `searchCore` run. -/
lemma search_inv (emb : String → Option Vec) (query : String) (k : Nat)
    (s : ServerState) (out : ServerState × List SearchResultRec)
    (h : VectorDBManager.search emb query k s = some out) :
    out.1 = s ∧
    (out.2 = [] ∨ ∃ qe, emb query = some qe ∧
       searchCore s.db.index s.db.metadata qe k = some out.2) := by
  unfold VectorDBManager.search at h
  by_cases hn : s.db.index.length = 0
  · rw [if_pos hn] at h
    have he := Option.some.inj h
    exact ⟨by rw [← he], Or.inl (by rw [← he])⟩
  · rw [if_neg hn] at h
    cases hq : emb query with
    | none => rw [hq] at h; exact absurd h (by simp)
    | some qe =>
      rw [hq] at h
      rcases Option.map_eq_some'.mp h with ⟨res, hres, hout⟩
      refine ⟨by rw [← hout], Or.inr ⟨qe, rfl, ?_⟩⟩
      rw [← hout]
      exact hres

/-- C2 (counterexample): `search(query, 0)` on a non-empty store raises
instead of returning an empty sequence.  The callers pass
`min(top_k, ntotal)` to `index.search`, which is 0 for `top_k = 0`, and
faiss (>= 1.7; the repository pins faiss-cpu>=1.8.0) rejects `k = 0`, so
both search methods propagate the error — modelled as `none` — on a
one-vector store. -/
theorem C2_counterexample :
    VectorDBManager.search (fun _ => some [0]) "q" 0
        ⟨⟨[[1]], [(0, recA)]⟩, ⟨none, none⟩⟩ = none ∧
    (⟨⟨[[1]], [(0, recA)]⟩, ⟨none, none⟩⟩ : ServerState).db.index.length ≠ 0 ∧
    SimpleVectorDB.search (fun _ => some [0]) "q" 0
        ⟨some [[1]], [(0, recA)], 1⟩ = none := by
  refine ⟨rfl, by decide, rfl⟩

/-- C2 (amended): for `k >= 1`, search returns exactly `min(k, n)`
results, ordered by non-decreasing squared Euclidean distance to the
query embedding, with each score the squared distance to some stored
vector; an empty store returns an empty sequence without error for every
`k` (the empty-store check precedes the faiss call); but `k = 0` on a
non-empty store raises, because faiss rejects `k = 0` — for both the
python-server `VectorDBManager.search` and the embedded
`SimpleVectorDB.search`.  The store invariant (every position has a
metadata entry) is assumed, and the query must be embeddable wherever the
source embeds it. -/
theorem C2_search_correct :
    (∀ (emb : String → Option Vec) (s : ServerState) (query : String) (k : Nat) (qe : Vec),
        emb query = some qe →
        (∀ i, i < s.db.index.length → (lookupA s.db.metadata i).isSome) →
        k ≠ 0 →
        ∃ res, VectorDBManager.search emb query k s = some (s, res) ∧
          res.length = min k s.db.index.length ∧
          List.Pairwise (fun r1 r2 : SearchResultRec => r1.score ≤ r2.score) res ∧
          (∀ r ∈ res, ∃ v ∈ s.db.index, r.score = sqDist qe v)) ∧
    (∀ (emb : String → Option Vec) (query : String) (k : Nat) (s : ServerState),
        s.db.index.length = 0 → VectorDBManager.search emb query k s = some (s, [])) ∧
    (∀ (emb : String → Option Vec) (s : ServerState) (query : String) (qe : Vec),
        emb query = some qe → s.db.index.length ≠ 0 →
        VectorDBManager.search emb query 0 s = none) ∧
    (∀ (emb : String → Option Vec) (db : SimpleVectorDB) (query : String) (k : Nat)
        (qe : Vec) (idx : List Vec),
        db.index = some idx → emb query = some qe →
        (∀ i, i < idx.length → (lookupA db.metadata i).isSome) →
        k ≠ 0 →
        ∃ res, SimpleVectorDB.search emb query k db = some res ∧
          res.length = min k idx.length ∧
          List.Pairwise (fun r1 r2 : SearchResultRec => r1.score ≤ r2.score) res ∧
          (∀ r ∈ res, ∃ v ∈ idx, r.score = sqDist qe v)) ∧
    (∀ (emb : String → Option Vec) (query : String) (k : Nat) (db : SimpleVectorDB),
        db.index = none → SimpleVectorDB.search emb query k db = some []) ∧
    (∀ (emb : String → Option Vec) (db : SimpleVectorDB) (query : String)
        (qe : Vec) (idx : List Vec),
        db.index = some idx → emb query = some qe → idx.length ≠ 0 →
        SimpleVectorDB.search emb query 0 db = none) := by
  refine ⟨?_, ?_, ?_, ?_, ?_, ?_⟩
  · intro emb s query k qe hq hinv hk
    by_cases hn : s.db.index.length = 0
    · refine ⟨[], ?_, by simp [hn], List.Pairwise.nil, by simp⟩
      unfold VectorDBManager.search
      rw [if_pos hn]
    · rcases searchCore_spec s.db.index s.db.metadata qe k hinv (by omega) with
        ⟨res, hres, hlen, hpw, hmem⟩
      refine ⟨res, ?_, hlen, hpw, hmem⟩
      unfold VectorDBManager.search
      rw [if_neg hn, hq]
      dsimp only
      rw [hres]
      rfl
  · intro emb query k s hn
    unfold VectorDBManager.search
    rw [if_pos hn]
  · intro emb s query qe hq hn
    unfold VectorDBManager.search
    rw [if_neg hn, hq]
    dsimp only
    rw [searchCore_eq_none _ _ _ _ (by omega)]
    rfl
  · intro emb db query k qe idx hidx hq hinv hk
    obtain ⟨oidx, md, dc⟩ := db
    simp only at hidx
    subst hidx
    by_cases hn : idx.length = 0
    · refine ⟨[], ?_, by simp [hn], List.Pairwise.nil, by simp⟩
      unfold SimpleVectorDB.search
      dsimp only
      rw [if_pos hn]
    · rcases searchCore_spec idx md qe k hinv (by omega) with
        ⟨res, hres, hlen, hpw, hmem⟩
      refine ⟨res, ?_, hlen, hpw, hmem⟩
      unfold SimpleVectorDB.search
      dsimp only
      rw [if_neg hn, hq]
      dsimp only
      rw [hres]
  · intro emb query k db hidx
    obtain ⟨oidx, md, dc⟩ := db
    simp only at hidx
    subst hidx
    rfl
  · intro emb db query qe idx hidx hq hn
    obtain ⟨oidx, md, dc⟩ := db
    simp only at hidx
    subst hidx
    unfold SimpleVectorDB.search
    dsimp only
    rw [if_neg hn, hq]
    dsimp only
    rw [searchCore_eq_none _ _ _ _ (by omega)]

/-- C2 witness: the python-server search on a concrete two-vector store
with a positive `k`. -/
theorem C2_search_correct_witness :
    ∃ res, VectorDBManager.search (fun _ => some [0, 0]) "q" 5
        ⟨⟨[[0, 1], [2, 2]], [(0, recA), (1, recB)]⟩, ⟨none, none⟩⟩ =
        some (⟨⟨[[0, 1], [2, 2]], [(0, recA), (1, recB)]⟩, ⟨none, none⟩⟩, res) ∧
      res.length = min 5 (⟨⟨[[0, 1], [2, 2]], [(0, recA), (1, recB)]⟩,
        ⟨none, none⟩⟩ : ServerState).db.index.length ∧
      List.Pairwise (fun r1 r2 : SearchResultRec => r1.score ≤ r2.score) res ∧
      (∀ r ∈ res, ∃ v ∈ (⟨⟨[[0, 1], [2, 2]], [(0, recA), (1, recB)]⟩,
        ⟨none, none⟩⟩ : ServerState).db.index, r.score = sqDist [0, 0] v) :=
  C2_search_correct.1 (fun _ => some [0, 0])
    ⟨⟨[[0, 1], [2, 2]], [(0, recA), (1, recB)]⟩, ⟨none, none⟩⟩ "q" 5 [0, 0]
    rfl (by decide) (by decide)

/-- C10: search is effect-free on the store — the state it returns is the
input state, every returned result is a copy built from a stored record
(the record can still be looked up unchanged in the store, whatever the
caller does to the returned copy), and re-running search on the returned
state reproduces the same output. -/
theorem C10_search_frame :
    (∀ (emb : String → Option Vec) (query : String) (k : Nat) (s : ServerState)
        (out : ServerState × List SearchResultRec),
        VectorDBManager.search emb query k s = some out → out.1 = s) ∧
    (∀ (emb : String → Option Vec) (query : String) (k : Nat) (s : ServerState)
        (out : ServerState × List SearchResultRec) (r : SearchResultRec),
        VectorDBManager.search emb query k s = some out → r ∈ out.2 →
        ∃ i, i < s.db.index.length ∧
          lookupA s.db.metadata i = some ⟨r.doc_id, r.content, r.metadata, r.timestamp⟩) ∧
    (∀ (emb : String → Option Vec) (query : String) (k : Nat) (s : ServerState)
        (out : ServerState × List SearchResultRec),
        VectorDBManager.search emb query k s = some out →
        VectorDBManager.search emb query k out.1 = some out) := by
  refine ⟨?_, ?_, ?_⟩
  · intro emb query k s out h
    exact (search_inv emb query k s out h).1
  · intro emb query k s out r h hr
    rcases search_inv emb query k s out h with ⟨_, hres | ⟨qe, _, hres⟩⟩
    · rw [hres] at hr
      exact absurd hr (List.not_mem_nil r)
    · rw [searchCore_some_inv _ _ _ _ _ hres] at hr
      rcases hitsToResults_mem _ _ r hr with ⟨p, hp, hrec, _⟩
      rcases knn_mem _ _ _ p hp with ⟨j, hj, hp1, _⟩
      rw [hp1] at hrec
      exact ⟨j, hj, hrec⟩
  · intro emb query k s out h
    rw [(search_inv emb query k s out h).1]
    exact h

/-- C10 witness: frame property at a concrete empty store. -/
theorem C10_search_frame_witness :
    ((⟨⟨⟨[], []⟩, ⟨none, none⟩⟩, []⟩ :
        ServerState × List SearchResultRec)).1 = ⟨⟨[], []⟩, ⟨none, none⟩⟩ :=
  C10_search_frame.1 (fun _ => none) "q" 5 ⟨⟨[], []⟩, ⟨none, none⟩⟩
    ⟨⟨⟨[], []⟩, ⟨none, none⟩⟩, []⟩ rfl

/-! ## Invariant preservation for a single add. -/

lemma step_inv {db : VectorDB} (v : Vec) (rec : DocRecord) (h : StoreInv db) :
    StoreInv ⟨db.index ++ [v], dictSet db.metadata db.index.length rec⟩ := by
  have hf := storeInv_fresh h
  show (dictSet db.metadata db.index.length rec).map Prod.fst
      = List.range (db.index ++ [v]).length
  rw [dictSet_fresh _ _ _ hf, List.map_append, h, List.length_append]
  simp [List.range_succ]

lemma simpleInv_fresh {db : SimpleVectorDB} (h : SimpleInv db) :
    db.doc_count ∉ db.metadata.map Prod.fst := by
  rw [h.1]
  exact fun hm => absurd (List.mem_range.mp hm) (lt_irrefl _)

/-! ## Batch-processing lemmas (server.py `process_batch_documents`). -/

lemma batch_nil (emb : String → Option Vec) (now : String) (s : ServerState) :
    process_batch_documents emb now [] s = s := rfl

lemma batch_cons (emb : String → Option Vec) (now : String)
    (d : DocumentRequest) (docs : List DocumentRequest) (s : ServerState) :
    process_batch_documents emb now (d :: docs) s =
      process_batch_documents emb now docs
        ((VectorDBManager.add_document emb now d.doc_id d.content d.metadata s).getD s) :=
  rfl

lemma batch_filter_eq (emb : String → Option Vec) (now : String) :
    ∀ (docs : List DocumentRequest) (s : ServerState),
      process_batch_documents emb now docs s =
        process_batch_documents emb now
          (docs.filter (fun d => (emb d.content).isSome)) s
  | [], _ => rfl
  | d :: docs, s => by
    cases hc : emb d.content with
    | none =>
      have hadd : VectorDBManager.add_document emb now d.doc_id d.content d.metadata s
          = none := by
        unfold VectorDBManager.add_document
        rw [hc]
      rw [batch_cons, hadd, Option.getD_none,
        List.filter_cons_of_neg (by simp [hc])]
      exact batch_filter_eq emb now docs s
    | some v =>
      rw [batch_cons, add_document_eq emb now d.doc_id d.content d.metadata s v hc,
        Option.getD_some, List.filter_cons_of_pos (by simp [hc]), batch_cons,
        add_document_eq emb now d.doc_id d.content d.metadata s v hc, Option.getD_some]
      exact batch_filter_eq emb now docs _

lemma batch_index_length (emb : String → Option Vec) (now : String) :
    ∀ (docs : List DocumentRequest) (s : ServerState),
      (process_batch_documents emb now docs s).db.index.length =
        s.db.index.length + (docs.filter (fun d => (emb d.content).isSome)).length
  | [], _ => by simp [batch_nil]
  | d :: docs, s => by
    cases hc : emb d.content with
    | none =>
      have hadd : VectorDBManager.add_document emb now d.doc_id d.content d.metadata s
          = none := by
        unfold VectorDBManager.add_document
        rw [hc]
      rw [batch_cons, hadd, Option.getD_none, List.filter_cons_of_neg (by simp [hc])]
      exact batch_index_length emb now docs s
    | some v =>
      rw [batch_cons, add_document_eq emb now d.doc_id d.content d.metadata s v hc,
        Option.getD_some, List.filter_cons_of_pos (by simp [hc])]
      rw [batch_index_length emb now docs _]
      simp only [List.length_append, List.length_cons, List.length_nil]
      omega

lemma batch_disk_preserved (emb : String → Option Vec) (now : String) :
    ∀ (docs : List DocumentRequest) (s : ServerState),
      s.disk = VectorDBManager.save s.db →
      (process_batch_documents emb now docs s).disk =
        VectorDBManager.save (process_batch_documents emb now docs s).db
  | [], _, h => h
  | d :: docs, s, h => by
    cases hc : emb d.content with
    | none =>
      have hadd : VectorDBManager.add_document emb now d.doc_id d.content d.metadata s
          = none := by
        unfold VectorDBManager.add_document
        rw [hc]
      rw [batch_cons, hadd, Option.getD_none]
      exact batch_disk_preserved emb now docs s h
    | some v =>
      rw [batch_cons, add_document_eq emb now d.doc_id d.content d.metadata s v hc,
        Option.getD_some]
      exact batch_disk_preserved emb now docs _ rfl

lemma batch_disk_saved (emb : String → Option Vec) (now : String) :
    ∀ (docs : List DocumentRequest) (s : ServerState),
      docs.filter (fun d => (emb d.content).isSome) ≠ [] →
      (process_batch_documents emb now docs s).disk =
        VectorDBManager.save (process_batch_documents emb now docs s).db
  | [], _, h => absurd rfl h
  | d :: docs, s, h => by
    cases hc : emb d.content with
    | none =>
      have hadd : VectorDBManager.add_document emb now d.doc_id d.content d.metadata s
          = none := by
        unfold VectorDBManager.add_document
        rw [hc]
      rw [List.filter_cons_of_neg (by simp [hc])] at h
      rw [batch_cons, hadd, Option.getD_none]
      exact batch_disk_saved emb now docs s h
    | some v =>
      rw [batch_cons, add_document_eq emb now d.doc_id d.content d.metadata s v hc,
        Option.getD_some]
      exact batch_disk_preserved emb now docs _ rfl

/-- The full inductive specification of an all-successful batch run:
invariant preservation, growth by one position per document, old entries
untouched, and the j-th document stored at position `old size + j`. -/
lemma batch_spec (emb : String → Option Vec) (now : String) :
    ∀ (docs : List DocumentRequest) (s : ServerState), StoreInv s.db →
      (∀ x ∈ docs, (emb x.content).isSome) →
      StoreInv (process_batch_documents emb now docs s).db ∧
      (process_batch_documents emb now docs s).db.index.length
        = s.db.index.length + docs.length ∧
      (∀ i, i < s.db.index.length →
        lookupA (process_batch_documents emb now docs s).db.metadata i
          = lookupA s.db.metadata i) ∧
      (∀ (j : Nat) (d : DocumentRequest), docs[j]? = some d →
        lookupA (process_batch_documents emb now docs s).db.metadata
            (s.db.index.length + j)
          = some ⟨d.doc_id, d.content, d.metadata, now⟩)
  | [], s, hinv, _ => by
    refine ⟨hinv, by simp [batch_nil], fun i _ => rfl, fun j d h => by simp at h⟩
  | d :: docs, s, hinv, hall => by
    rcases Option.isSome_iff_exists.mp (hall d (List.mem_cons_self d docs)) with ⟨v, hv⟩
    have hstep := batch_cons emb now d docs s
    rw [add_document_eq emb now d.doc_id d.content d.metadata s v hv,
      Option.getD_some] at hstep
    set s₁ : ServerState :=
      ⟨⟨s.db.index ++ [v], dictSet s.db.metadata s.db.index.length
          ⟨d.doc_id, d.content, d.metadata, now⟩⟩,
       VectorDBManager.save
         ⟨s.db.index ++ [v], dictSet s.db.metadata s.db.index.length
            ⟨d.doc_id, d.content, d.metadata, now⟩⟩⟩ with hs₁
    have hinv₁ : StoreInv s₁.db := step_inv v _ hinv
    have hlen₁ : s₁.db.index.length = s.db.index.length + 1 := by
      simp [hs₁, List.length_append]
    have ih := batch_spec emb now docs s₁ hinv₁
      (fun x hx => hall x (List.mem_cons_of_mem d hx))
    rw [hstep]
    refine ⟨ih.1, ?_, ?_, ?_⟩
    · rw [ih.2.1, hlen₁]
      simp only [List.length_cons]
      omega
    · intro i hi
      rw [ih.2.2.1 i (by omega)]
      show lookupA (dictSet s.db.metadata s.db.index.length _) i = _
      rw [dictSet_fresh _ _ _ (storeInv_fresh hinv)]
      exact lookupA_append_right_ne _ _ _ _ (by omega)
    · intro j e he
      cases j with
      | zero =>
        rw [List.getElem?_cons_zero] at he
        have hd : e = d := (Option.some.inj he).symm
        subst hd
        rw [Nat.add_zero, ih.2.2.1 s.db.index.length (by omega)]
        show lookupA (dictSet s.db.metadata s.db.index.length _) _ = _
        rw [dictSet_fresh _ _ _ (storeInv_fresh hinv)]
        exact lookupA_append_self _ _ _ (storeInv_fresh hinv)
      | succ j' =>
        rw [List.getElem?_cons_succ] at he
        have := ih.2.2.2 j' e he
        rw [hlen₁] at this
        have harith : s.db.index.length + (j' + 1) = s.db.index.length + 1 + j' := by
          omega
        rw [harith]
        exact this

/-! ## The embedded server's add at the process level, and batch abort. -/

/-- The embedded server's document-add at the process level: the store is
in memory only — `SimpleVectorDB.add_document` performs no file write, so
the file-system component of the state is returned unchanged. -/
def embeddedServerAdd (emb : String → Option Vec) (now doc_id content : String)
    (md : MetaDict) (st : SimpleVectorDB × Disk) : (SimpleVectorDB × Disk) × Bool :=
  (((SimpleVectorDB.add_document emb now doc_id content md st.1).1, st.2),
   (SimpleVectorDB.add_document emb now doc_id content md st.1).2)

/-- The embedded batch endpoint aborts at the first failing document:
everything after the failure is ignored. -/
lemma embedded_batch_abort (emb : String → Option Vec) (now : String)
    (bad : DocumentRequest) (h : emb bad.content = none) :
    ∀ (docs1 docs2 : List DocumentRequest) (db : SimpleVectorDB),
      (∀ x ∈ docs1, (emb x.content).isSome) →
      batch_add_documents emb now (docs1 ++ bad :: docs2) db =
        batch_add_documents emb now (docs1 ++ [bad]) db
  | [], docs2, db, _ => by
    simp only [List.nil_append]
    unfold batch_add_documents
    rw [simple_add_of_none emb now bad.doc_id bad.content bad.metadata db h]
  | x :: docs1, docs2, db, hall => by
    rcases Option.isSome_iff_exists.mp (hall x (List.mem_cons_self x docs1)) with ⟨v, hv⟩
    simp only [List.cons_append]
    unfold batch_add_documents
    rw [simple_add_eq emb now x.doc_id x.content x.metadata db v hv]
    exact embedded_batch_abort emb now bad h docs1 docs2 _
      (fun y hy => hall y (List.mem_cons_of_mem x hy))

/-- C3 (counterexample): a successful add on the embedded server's store
persists nothing — starting from an empty file system, after the add
succeeds (flag `true`, one document stored) both on-disk artifacts are
still absent, contradicting the claim that every successful add persists
both artifacts before returning. -/
theorem C3_counterexample :
    (embeddedServerAdd (fun _ => some [1]) "ts" "d" "c" ⟨[]⟩
        (⟨none, [], 0⟩, ⟨none, none⟩)).2 = true ∧
    (embeddedServerAdd (fun _ => some [1]) "ts" "d" "c" ⟨[]⟩
        (⟨none, [], 0⟩, ⟨none, none⟩)).1.1.doc_count = 1 ∧
    (embeddedServerAdd (fun _ => some [1]) "ts" "d" "c" ⟨[]⟩
        (⟨none, [], 0⟩, ⟨none, none⟩)).1.2 = ⟨none, none⟩ := by
  refine ⟨rfl, rfl, rfl⟩

/-- C3 (amended): in the python-server `VectorDBManager`, every
successful add appends the embedding at the next position, stores the
record there with the creation timestamp, and synchronously persists both
artifacts before returning; the embedded server's
`SimpleVectorDB.add_document` updates only the in-memory store and never
touches the disk. -/
theorem C3_add_persists :
    (∀ (emb : String → Option Vec) (now doc_id content : String) (md : MetaDict)
        (s : ServerState) (v : Vec), emb content = some v →
        ∃ s', VectorDBManager.add_document emb now doc_id content md s = some s' ∧
          s'.db.index = s.db.index ++ [v] ∧
          lookupA s'.db.metadata s.db.index.length
            = some ⟨doc_id, content, md, now⟩ ∧
          s'.disk = ⟨some s'.db.index, some s'.db.metadata⟩) ∧
    (∀ (emb : String → Option Vec) (now doc_id content : String) (md : MetaDict)
        (st : SimpleVectorDB × Disk),
        (embeddedServerAdd emb now doc_id content md st).1.2 = st.2) := by
  constructor
  · intro emb now doc_id content md s v h
    rw [add_document_eq emb now doc_id content md s v h]
    exact ⟨_, rfl, rfl, lookupA_dictSet_self _ _ _, rfl⟩
  · intro emb now doc_id content md st
    rfl

/-- C3 witness: the persisting add at a concrete input. -/
theorem C3_add_persists_witness :
    ∃ s', VectorDBManager.add_document (fun _ => some [2]) "ts" "d" "c" ⟨[]⟩
        ⟨⟨[], []⟩, ⟨none, none⟩⟩ = some s' ∧
      s'.db.index = (⟨⟨[], []⟩, ⟨none, none⟩⟩ : ServerState).db.index ++ [[2]] ∧
      lookupA s'.db.metadata
          (⟨⟨[], []⟩, ⟨none, none⟩⟩ : ServerState).db.index.length
        = some ⟨"d", "c", ⟨[]⟩, "ts"⟩ ∧
      s'.disk = ⟨some s'.db.index, some s'.db.metadata⟩ :=
  C3_add_persists.1 (fun _ => some [2]) "ts" "d" "c" ⟨[]⟩
    ⟨⟨[], []⟩, ⟨none, none⟩⟩ [2] rfl

/-- The fallible embedder of the batch counterexample: it fails exactly
on the content `bad`. -/
def c6_emb : String → Option Vec := fun s => if s == "bad" then none else some [1]

/-- A batch whose middle document's embedding fails. -/
def c6_docs : List DocumentRequest :=
  [⟨"x", ⟨[]⟩, "d1"⟩, ⟨"bad", ⟨[]⟩, "d2"⟩, ⟨"y", ⟨[]⟩, "d3"⟩]

/-- C6 (counterexample): in the embedded server's batch endpoint, a batch
of three documents whose second fails ends with only one document stored:
the third (perfectly embeddable) document is never added, contradicting
the claim that a failure is isolated to its own document. -/
theorem C6_counterexample :
    (batch_add_documents c6_emb "ts" c6_docs ⟨none, [], 0⟩).1.doc_count = 1 ∧
    lookupA (batch_add_documents c6_emb "ts" c6_docs ⟨none, [], 0⟩).1.metadata 1
      = none ∧
    (batch_add_documents c6_emb "ts" c6_docs ⟨none, [], 0⟩).2 = false := by
  refine ⟨rfl, rfl, rfl⟩

/-- C6 (amended): in the python-server background batch processor a
failing document is skipped and all other documents are still added and
persisted — processing a batch equals processing just its embeddable
documents, the store grows by exactly one position per embeddable
document, and after any successful add the on-disk artifacts match the
final store.  In the embedded server's batch endpoint, by contrast, the
first failure aborts the loop: the documents after it are ignored. -/
theorem C6_batch_isolation :
    (∀ (emb : String → Option Vec) (now : String) (docs : List DocumentRequest)
        (s : ServerState),
        process_batch_documents emb now docs s =
          process_batch_documents emb now
            (docs.filter (fun d => (emb d.content).isSome)) s) ∧
    (∀ (emb : String → Option Vec) (now : String) (docs : List DocumentRequest)
        (s : ServerState),
        (process_batch_documents emb now docs s).db.index.length =
          s.db.index.length +
            (docs.filter (fun d => (emb d.content).isSome)).length) ∧
    (∀ (emb : String → Option Vec) (now : String) (docs : List DocumentRequest)
        (s : ServerState),
        docs.filter (fun d => (emb d.content).isSome) ≠ [] →
        (process_batch_documents emb now docs s).disk =
          VectorDBManager.save (process_batch_documents emb now docs s).db) ∧
    (∀ (emb : String → Option Vec) (now : String) (bad : DocumentRequest)
        (docs1 docs2 : List DocumentRequest) (db : SimpleVectorDB),
        emb bad.content = none →
        (∀ x ∈ docs1, (emb x.content).isSome) →
        batch_add_documents emb now (docs1 ++ bad :: docs2) db =
          batch_add_documents emb now (docs1 ++ [bad]) db) := by
  refine ⟨?_, ?_, ?_, ?_⟩
  · intro emb now docs s
    exact batch_filter_eq emb now docs s
  · intro emb now docs s
    exact batch_index_length emb now docs s
  · intro emb now docs s h
    exact batch_disk_saved emb now docs s h
  · intro emb now bad docs1 docs2 db h hall
    exact embedded_batch_abort emb now bad h docs1 docs2 db hall

/-- C6 witness: batch isolation on a concrete batch with one failure. -/
theorem C6_batch_isolation_witness :
    (process_batch_documents c6_emb "ts" c6_docs ⟨⟨[], []⟩, ⟨none, none⟩⟩).disk =
      VectorDBManager.save
        (process_batch_documents c6_emb "ts" c6_docs ⟨⟨[], []⟩, ⟨none, none⟩⟩).db :=
  C6_batch_isolation.2.2.1 c6_emb "ts" c6_docs ⟨⟨[], []⟩, ⟨none, none⟩⟩ (by decide)

/-- C9: the store invariant (as many metadata entries as vectors, every
position `< size` having an entry) holds for the empty store and is
preserved by every successful add in both servers; the position an add
assigns is the current size, so positions grow strictly from 0 and an
existing position's record is never changed — and a fully successful
batch run from the empty store places the j-th document exactly at
position j. -/
theorem C9_invariant_and_monotonicity :
    StoreInv ⟨[], []⟩ ∧
    (∀ (emb : String → Option Vec) (now d c : String) (m : MetaDict)
        (s : ServerState) (v : Vec),
        emb c = some v → StoreInv s.db →
        ∃ s', VectorDBManager.add_document emb now d c m s = some s' ∧
          StoreInv s'.db ∧
          s'.db.metadata.length = s'.db.index.length ∧
          (∀ i, i < s'.db.index.length → (lookupA s'.db.metadata i).isSome) ∧
          s'.db.index.length = s.db.index.length + 1 ∧
          lookupA s'.db.metadata s.db.index.length = some ⟨d, c, m, now⟩ ∧
          (∀ i, i < s.db.index.length →
            lookupA s'.db.metadata i = lookupA s.db.metadata i)) ∧
    (∀ (emb : String → Option Vec) (now : String) (docs : List DocumentRequest),
        (∀ x ∈ docs, (emb x.content).isSome) →
        (process_batch_documents emb now docs
            ⟨⟨[], []⟩, ⟨none, none⟩⟩).db.index.length = docs.length ∧
        (∀ (j : Nat) (d : DocumentRequest), docs[j]? = some d →
          lookupA (process_batch_documents emb now docs
              ⟨⟨[], []⟩, ⟨none, none⟩⟩).db.metadata j
            = some ⟨d.doc_id, d.content, d.metadata, now⟩)) ∧
    (∀ (emb : String → Option Vec) (now d c : String) (m : MetaDict)
        (db : SimpleVectorDB) (v : Vec),
        emb c = some v → SimpleInv db →
        ∃ db', SimpleVectorDB.add_document emb now d c m db = (db', true) ∧
          SimpleInv db' ∧
          db'.doc_count = db.doc_count + 1 ∧
          lookupA db'.metadata db.doc_count = some ⟨d, c, m, now⟩ ∧
          (∀ i, i < db.doc_count →
            lookupA db'.metadata i = lookupA db.metadata i)) := by
  refine ⟨by simp [StoreInv], ?_, ?_, ?_⟩
  · intro emb now d c m s v hv hinv
    rw [add_document_eq emb now d c m s v hv]
    have hinv' : StoreInv ⟨s.db.index ++ [v],
        dictSet s.db.metadata s.db.index.length ⟨d, c, m, now⟩⟩ :=
      step_inv v _ hinv
    refine ⟨_, rfl, hinv', hinv'.sizeEq, hinv'.allPresent, ?_, ?_, ?_⟩
    · simp [List.length_append]
    · show lookupA (dictSet s.db.metadata s.db.index.length _) _ = _
      rw [dictSet_fresh _ _ _ (storeInv_fresh hinv)]
      exact lookupA_append_self _ _ _ (storeInv_fresh hinv)
    · intro i hi
      show lookupA (dictSet s.db.metadata s.db.index.length _) i = _
      rw [dictSet_fresh _ _ _ (storeInv_fresh hinv)]
      exact lookupA_append_right_ne _ _ _ _ (by omega)
  · intro emb now docs hall
    have hs := batch_spec emb now docs ⟨⟨[], []⟩, ⟨none, none⟩⟩ (by simp [StoreInv]) hall
    refine ⟨by simpa using hs.2.1, ?_⟩
    intro j d hj
    have := hs.2.2.2 j d hj
    simpa using this
  · intro emb now d c m db v hv hinv
    rw [simple_add_eq emb now d c m db v hv]
    have hf := simpleInv_fresh hinv
    refine ⟨_, rfl, ⟨?_, ?_⟩, rfl, ?_, ?_⟩
    · show (dictSet db.metadata db.doc_count _).map Prod.fst = List.range (db.doc_count + 1)
      rw [dictSet_fresh _ _ _ hf, List.map_append, hinv.1]
      simp [List.range_succ]
    · show db.doc_count + 1 = ((some ((db.index.getD []) ++ [v])).getD []).length
      rw [Option.getD_some, List.length_append, ← hinv.2]
      simp
    · show lookupA (dictSet db.metadata db.doc_count _) _ = _
      rw [dictSet_fresh _ _ _ hf]
      exact lookupA_append_self _ _ _ hf
    · intro i hi
      show lookupA (dictSet db.metadata db.doc_count _) i = _
      rw [dictSet_fresh _ _ _ hf]
      exact lookupA_append_right_ne _ _ _ _ (by omega)

/-- C9 witness: invariant preservation for a concrete add on a concrete
one-vector store. -/
theorem C9_invariant_and_monotonicity_witness :
    ∃ s', VectorDBManager.add_document (fun _ => some [3]) "ts" "d" "c" ⟨[]⟩
        ⟨⟨[[1]], [(0, recA)]⟩, ⟨none, none⟩⟩ = some s' ∧
      StoreInv s'.db ∧
      s'.db.metadata.length = s'.db.index.length ∧
      (∀ i, i < s'.db.index.length → (lookupA s'.db.metadata i).isSome) ∧
      s'.db.index.length =
        (⟨⟨[[1]], [(0, recA)]⟩, ⟨none, none⟩⟩ : ServerState).db.index.length + 1 ∧
      lookupA s'.db.metadata
          (⟨⟨[[1]], [(0, recA)]⟩, ⟨none, none⟩⟩ : ServerState).db.index.length
        = some ⟨"d", "c", ⟨[]⟩, "ts"⟩ ∧
      (∀ i, i < (⟨⟨[[1]], [(0, recA)]⟩, ⟨none, none⟩⟩ : ServerState).db.index.length →
        lookupA s'.db.metadata i =
          lookupA (⟨⟨[[1]], [(0, recA)]⟩, ⟨none, none⟩⟩ : ServerState).db.metadata i) :=
  C9_invariant_and_monotonicity.2.1 (fun _ => some [3]) "ts" "d" "c" ⟨[]⟩
    ⟨⟨[[1]], [(0, recA)]⟩, ⟨none, none⟩⟩ [3] rfl (by unfold StoreInv; rfl)

end AutoDoc
